import Mathlib

/-!
Verification of the code-analysis subsystem
(`tools/code_analyser/code_analysis_tools.py` and
`tools/code_analyser/ai_agent_tools.py`).

The Python functions are shallowly embedded: Python `dict`s become
insertion-ordered association lists with in-place overwrite, Python
`list`s become Lean lists, Python strings become Lean `String`s and the
relevant `str` methods (`in`, `endswith`, `lower`, `strip`, `rstrip`,
`find`, `split(sep, maxsplit)`, `int(...)`) are modelled over the
underlying character lists.  Fallible operations return `Option` or an
explicit result type with an error constructor.
-/

namespace CodeAnalysis

/-- Contiguous-substring test on character lists. -/
def containsSub (needle : List Char) : List Char → Bool
  | [] => needle.isPrefixOf []
  | c :: rest => needle.isPrefixOf (c :: rest) || containsSub needle rest

/-- Python `needle in hay` on strings: contiguous-substring test. -/
def pyIn (needle hay : String) : Bool :=
  containsSub needle.data hay.data

/-- Python `s.endswith(t)`. -/
def pyEndsWith (s t : String) : Bool :=
  t.data.isSuffixOf s.data

/-- Python `s.startswith(t)`. -/
def pyStartsWith (s t : String) : Bool :=
  t.data.isPrefixOf s.data

/-- Python `s.lower()` (ASCII case folding, as used by the queries). -/
def pyLower (s : String) : String :=
  ⟨s.data.map Char.toLower⟩

/-- The whitespace characters stripped by Python `str.strip()`. -/
def isPySpace (c : Char) : Bool :=
  c == ' ' || c == '\t' || c == '\n' || c == '\r' || c == '\x0b' || c == '\x0c'

/-- Drop trailing characters satisfying `p`. -/
def dropTrailing (p : Char → Bool) (l : List Char) : List Char :=
  (l.reverse.dropWhile p).reverse

/-- Python `s.strip()`. -/
def pyStrip (s : String) : String :=
  ⟨dropTrailing isPySpace (s.data.dropWhile isPySpace)⟩

/-- Python `s.rstrip()`. -/
def pyRstrip (s : String) : String :=
  ⟨dropTrailing isPySpace s.data⟩

/-- Helper for Python `hay.find(needle)`: index of first occurrence or -1. -/
def pyFindAux (needle : List Char) : Nat → List Char → Int
  | i, [] => if needle == [] then (i : Int) else -1
  | i, c :: rest =>
    if List.isPrefixOf needle (c :: rest) then (i : Int)
    else pyFindAux needle (i + 1) rest

/-- Python `hay.find(needle)`. -/
def pyFind (hay needle : String) : Int :=
  pyFindAux needle.data 0 hay.data

/-- Digit value of an ASCII digit character. -/
def digitVal (c : Char) : Nat := c.toNat - '0'.toNat

/-- Parse a non-empty all-digit character list as a natural number. -/
def parseDigits (l : List Char) : Option Nat :=
  if l == [] then none
  else if l.all (fun c => c.isDigit) then
    some (l.foldl (fun acc c => acc * 10 + digitVal c) 0)
  else none

/-- Python `int(s)` on decimal strings: optional surrounding whitespace,
optional sign, then digits; `none` models the `ValueError` branch.
(Underscore digit separators accepted by CPython are not modelled; they
cannot occur in the grep-style output this parser consumes.) -/
def pyInt (s : String) : Option Int :=
  match (pyStrip s).data with
  | '-' :: rest => (parseDigits rest).map (fun n => -(n : Int))
  | '+' :: rest => (parseDigits rest).map (fun n => (n : Int))
  | t => (parseDigits t).map (fun n => (n : Int))

/-- Python `s.split(sep, maxsplit)` on character lists: at most
`maxsplit` splits, each at the first remaining occurrence of `sep`. -/
def splitMax (sep : Char) : List Char → Nat → List (List Char)
  | s, 0 => [s]
  | s, n + 1 =>
    if sep ∈ s then
      s.takeWhile (fun c => c != sep) ::
        splitMax sep ((s.dropWhile (fun c => c != sep)).tail) n
    else [s]

/-- Python `s.split(sep)` without a split bound, on character lists. -/
def splitAllChar (sep : Char) : List Char → List (List Char)
  | [] => [[]]
  | c :: rest =>
    if c == sep then [] :: splitAllChar sep rest
    else
      match splitAllChar sep rest with
      | h :: t => (c :: h) :: t
      | [] => [[c]]

/-- The characters after the last occurrence of `rsep.reverse`,
scanning from the right with `acc` the characters already passed;
`none` when the separator does not occur. -/
def afterLastAux (rsep : List Char) (acc : List Char) :
    List Char → Option (List Char)
  | [] => none
  | c :: rest =>
    if List.isPrefixOf rsep (c :: rest) then some acc
    else afterLastAux rsep (c :: acc) rest

/-- Python `s.split(sep)[-1]` for a non-empty `sep` occurring in `s`:
the characters after the last occurrence of `sep`; `none` when `sep`
does not occur. -/
def afterLast (sep : List Char) (l : List Char) : Option (List Char) :=
  afterLastAux sep.reverse [] l.reverse

/-- `os.path.basename`: everything after the last `/`. -/
def pyBasename (s : String) : String :=
  ⟨(s.data.reverse.takeWhile (fun c => c != '/')).reverse⟩

/-- `os.path.join(a, b)` for a relative `b` (the only use in the code). -/
def pyPathJoin (a b : String) : String :=
  if a == "" then b
  else if pyEndsWith a "/" then a ++ b
  else a ++ "/" ++ b

/-- Python `repr` of a list of plain strings, as interpolated into
`CalledProcessError.__str__` (escaping of quotes inside the strings is
not modelled; no command built by `SearchTool` contains quotes). -/
def pyReprList (l : List String) : String :=
  "[" ++ String.intercalate ", " (l.map (fun s => "'" ++ s ++ "'")) ++ "]"

/-- `fnmatch.fnmatch`-style glob matching (`*` and `?`; POSIX
`normcase` is the identity, and the character-class syntax `[...]` is
not used by any claim). -/
def globMatch : List Char → List Char → Bool
  | [], [] => true
  | [], _ :: _ => false
  | '*' :: ps, s =>
    globMatch ps s ||
      (match s with
       | [] => false
       | _ :: cs => globMatch ('*' :: ps) cs)
  | '?' :: ps, s =>
    (match s with
     | [] => false
     | _ :: cs => globMatch ps cs)
  | p :: ps, s =>
    (match s with
     | [] => false
     | c :: cs => p == c && globMatch ps cs)
  termination_by p s => (p.length, s.length)

/-- `fnmatch.fnmatch(name, pat)`. -/
def fnmatch (name pat : String) : Bool :=
  globMatch pat.data name.data

/-! ### Python dict / list operations

Python `dict`s keep insertion order and overwrite in place; they are
modelled as association lists with unique keys. -/

/-- `k in d` for a Python dict. -/
def dictHasKey {α : Type} (d : List (String × α)) (k : String) : Bool :=
  d.any (fun p => p.1 == k)

/-- `d[k] = v`: overwrite in place at the entry holding `k` (keys are
unique by construction), else append at the end — Python dicts keep
insertion order. -/
def dictInsert {α : Type} (d : List (String × α)) (k : String) (v : α) :
    List (String × α) :=
  match d with
  | [] => [(k, v)]
  | p :: rest =>
    if p.1 == k then (k, v) :: rest else p :: dictInsert rest k v

/-- `d.get(k)` / `d[k]`. -/
def dictGet? {α : Type} (d : List (String × α)) (k : String) : Option α :=
  (d.find? (fun p => p.1 == k)).map Prod.snd

/-- `del d[k]`. -/
def dictDelete {α : Type} (d : List (String × α)) (k : String) :
    List (String × α) :=
  d.filter (fun p => p.1 != k)

/-- `d.update(new)`: insert every pair of `new` in order. -/
def dictUpdateWith {α : Type} (d new : List (String × α)) :
    List (String × α) :=
  new.foldl (fun acc p => dictInsert acc p.1 p.2) d

/-- Python `list.remove(v)`: remove the first occurrence only. -/
def listRemoveFirst : List String → String → List String
  | [], _ => []
  | x :: xs, v => if x == v then xs else x :: listRemoveFirst xs v

/-! ### Data model (`SymbolInfo`, `FileInfo`, `SearchResult`, the index) -/

/-- `SymbolInfo` dataclass: one indexed declaration. -/
structure SymbolInfo where
  type : String
  file : String
  line : Nat
  signature : Option String := none
  called_by : List String := []
deriving Repr, DecidableEq

/-- `FileInfo` dataclass; its Python `symbols` dict with fixed keys
`"functions"`/`"classes"` is flattened into two list fields. -/
structure FileInfo where
  language : String
  line_count : Nat
  functions : List String
  classes : List String
  imports : List String
  exports : Option (List String) := none
  package : Option String := none
deriving Repr, DecidableEq

/-- `SearchResult` dataclass (the context fields keep their default
empty value in every code path modelled here and are omitted). -/
structure SearchResult where
  file : String
  line_number : Int
  line_content : String
deriving Repr, DecidableEq

/-- The three-key `index_data` dict built by `_build_index`. -/
structure Idx where
  files : List (String × FileInfo)
  symbols : List (String × SymbolInfo)
  file_list : List String
deriving Repr, DecidableEq

/-- The empty skeleton installed at the start of `_build_index`. -/
def emptyIdx : Idx := { files := [], symbols := [], file_list := [] }

/-! ### Java parsing strategy (`JavaParsingStrategy`)

A tree-sitter syntax node is embedded with its node type, the source
text it spans (`content[start_byte:end_byte]`), its zero-based start
row (`start_point[0]`), its `start_byte`, and its child list (named and
anonymous children, in source order, exactly as the Python tree-sitter
binding exposes them). -/

mutual

/-- A tree-sitter syntax node. -/
inductive Node where
  | mk (ty : String) (text : String) (row : Nat) (startByte : Nat)
       (children : NodeList)

/-- A list of sibling syntax nodes (kept as a separate inductive so
that the traversal below is structurally recursive). -/
inductive NodeList where
  | nil
  | cons (n : Node) (l : NodeList)

end

/-- Node type. -/
def Node.ty : Node → String
  | .mk t _ _ _ _ => t

/-- Source text spanned by the node (`content[start_byte:end_byte]`). -/
def Node.text : Node → String
  | .mk _ s _ _ _ => s

/-- Zero-based start row (`node.start_point[0]`). -/
def Node.row : Node → Nat
  | .mk _ _ r _ _ => r

/-- `node.start_byte`. -/
def Node.startByte : Node → Nat
  | .mk _ _ _ b _ => b

/-- Child nodes in source order. -/
def Node.childList : Node → NodeList
  | .mk _ _ _ _ cs => cs

/-- Convert a sibling chain to a plain list. -/
def NodeList.toList : NodeList → List Node
  | .nil => []
  | .cons n l => n :: l.toList

/-- Build a sibling chain from a plain list. -/
def NodeList.ofList : List Node → NodeList
  | [] => .nil
  | n :: l => .cons n (NodeList.ofList l)

/-- Convenience constructor used to transcribe concrete trees. -/
def node (ty text : String) (row startByte : Nat) (cs : List Node) : Node :=
  .mk ty text row startByte (NodeList.ofList cs)

/-- Child nodes in source order, as a plain list. -/
def Node.children (n : Node) : List Node :=
  n.childList.toList

/-- `JavaParsingStrategy._get_identifier`: text of the first child of
type `identifier`. -/
def getIdentifier (n : Node) : Option String :=
  ((n.children.find? (fun c => c.ty == "identifier")).map Node.text)

/-- `JavaParsingStrategy._get_signature`: first line of the node's
text, stripped. -/
def getSignature (n : Node) : String :=
  pyStrip ⟨n.text.data.takeWhile (fun c => c != '\n')⟩

/-- `JavaParsingStrategy._get_called_method`: scan children; inside a
`field_access` child return the first `identifier` grandchild that
starts strictly after the `field_access` itself, else the first
`identifier` child. -/
def getCalledMethod (n : Node) : Option String :=
  getCalledMethodGo n.children
where
  getCalledMethodGo : List Node → Option String
    | [] => none
    | c :: rest =>
      if c.ty == "field_access" then
        match c.children.find?
            (fun s => s.ty == "identifier" && c.startByte < s.startByte) with
        | some s => some s.text
        | none => getCalledMethodGo rest
      else if c.ty == "identifier" then some c.text
      else getCalledMethodGo rest

/-- `JavaParsingStrategy._create_symbol_id`. -/
def createSymbolId (filePath symbolName : String) : String :=
  filePath ++ "::" ++ symbolName

/-- The mutable accumulators threaded through `_traverse_node`. -/
structure PState where
  symbols : List (String × SymbolInfo)
  functions : List String
  classes : List String
  imports : List String
  symbol_lookup : List (String × String)
deriving Repr, DecidableEq

/-- Initial parse state. -/
def PState.empty : PState :=
  { symbols := [], functions := [], classes := [], imports := [],
    symbol_lookup := [] }

/-- Record a call edge: if `called` resolves through `symbol_lookup`,
append `currentMethod` to the target's `called_by` (deduplicated). -/
def recordCall (st : PState) (called currentMethod : String) : PState :=
  match dictGet? st.symbol_lookup called with
  | none => st
  | some targetId =>
    { st with
      symbols := st.symbols.map (fun p =>
        if p.1 == targetId then
          (p.1,
           if currentMethod ∈ p.2.called_by then p.2
           else { p.2 with called_by := p.2.called_by ++ [currentMethod] })
        else p) }

/-- `import_declaration` handling: strip the keyword and semicolon from
the raw text and append if non-empty. -/
def recordImport (st : PState) (text : String) : PState :=
  let importPath := pyStrip ((text.replace "import" "").replace ";" "")
  if importPath == "" then st
  else { st with imports := st.imports ++ [importPath] }

/-- `JavaParsingStrategy._traverse_node`: single depth-first traversal
carrying the innermost enclosing class name and the SymbolId of the
innermost enclosing method.  The Python recursion is unbounded; here
`fuel` bounds the recursion depth (at fuel 0 the node is ignored), and
every use below instantiates `fuel` strictly above the depth of the
tree it is applied to, where the two semantics agree. -/
def traverse_node (filePath : String) :
    Nat → Option String → Option String → PState → Node → PState
  | 0, _, _, st, _ => st
  | fuel + 1, currentClass, currentMethod, st, Node.mk nty ntext nrow nsb cs =>
    if nty == "class_declaration" then
      match getIdentifier (Node.mk nty ntext nrow nsb cs) with
      | some name =>
        let symbolId := createSymbolId filePath name
        let st :=
          { st with
            symbols := dictInsert st.symbols symbolId
              { type := "class", file := filePath, line := nrow + 1 }
            symbol_lookup := dictInsert st.symbol_lookup name symbolId
            classes := st.classes ++ [name] }
        cs.toList.foldl
          (fun st c => traverse_node filePath fuel (some name) currentMethod st c)
          st
      | none =>
        cs.toList.foldl
          (fun st c =>
            traverse_node filePath fuel currentClass currentMethod st c) st
    else if nty == "method_declaration" then
      match getIdentifier (Node.mk nty ntext nrow nsb cs) with
      | some name =>
        let fullName :=
          match currentClass with
          | some c => c ++ "." ++ name
          | none => name
        let symbolId := createSymbolId filePath fullName
        let st :=
          { st with
            symbols := dictInsert st.symbols symbolId
              { type := "method", file := filePath, line := nrow + 1,
                signature := some (getSignature (Node.mk nty ntext nrow nsb cs)) }
            symbol_lookup :=
              dictInsert (dictInsert st.symbol_lookup fullName symbolId)
                name symbolId
            functions := st.functions ++ [fullName] }
        cs.toList.foldl
          (fun st c =>
            traverse_node filePath fuel currentClass (some symbolId) st c) st
      | none =>
        cs.toList.foldl
          (fun st c =>
            traverse_node filePath fuel currentClass currentMethod st c) st
    else
      let st :=
        if nty == "method_invocation" then
          match currentMethod with
          | some cm =>
            match getCalledMethod (Node.mk nty ntext nrow nsb cs) with
            | some called => recordCall st called cm
            | none => st
          | none => st
        else if nty == "import_declaration" then recordImport st ntext
        else st
      cs.toList.foldl
        (fun st c => traverse_node filePath fuel currentClass currentMethod st c)
        st

/-- `JavaParsingStrategy._extract_package`: text of the first
`scoped_identifier` child of the package declaration. -/
def extractPackage (n : Node) : Option String :=
  ((n.children.find? (fun c => c.ty == "scoped_identifier")).map Node.text)

/-- Python `len(content.splitlines())` restricted to `\n` line
terminators (the only ones occurring in the inputs considered here). -/
def lineCount (content : String) : Nat :=
  if content == "" then 0
  else if pyEndsWith content "\n" then (content.splitOn "\n").length - 1
  else (content.splitOn "\n").length

/-- `JavaParsingStrategy.parse_file` applied to the tree-sitter root
node of `content`: package extraction, single-pass traversal, and the
`FileInfo` record.  `fuel` bounds the traversal depth (see
`traverse_node`); the concrete applications below use fuel 16 on trees
of depth at most 9. -/
def parse_file_java (fuel : Nat) (filePath : String) (root : Node)
    (content : String) : List (String × SymbolInfo) × FileInfo :=
  let package :=
    match root.children.find? (fun c => c.ty == "package_declaration") with
    | some n => extractPackage n
    | none => none
  let st := traverse_node filePath fuel none none PState.empty root
  (st.symbols,
   { language := "java", line_count := lineCount content,
     functions := st.functions, classes := st.classes,
     imports := st.imports, package := package })

/-! ### Code indexer (`CodeIndexer`)

File I/O is factored out: `_index_file` first reads the file and
dispatches to a parsing strategy, then splices the parse result into
the index; the splicing (lines 761-764 of the source) is embedded with
the parse result passed as an argument. -/

/-- `CodeIndexer._index_file`, given the parse result of the file:
overwrite the `files` entry, `dict.update` the `symbols` map with the
new parse's symbols, and `list.append` the relative path to
`file_list`. -/
def indexFileWith (idx : Idx) (relPath : String)
    (syms : List (String × SymbolInfo)) (fi : FileInfo) : Idx :=
  { files := dictInsert idx.files relPath fi
    symbols := dictUpdateWith idx.symbols syms
    file_list := idx.file_list ++ [relPath] }

/-- `CodeIndexer._build_index`: reset to the empty skeleton, then
`_index_file` each discovered file in walk order (the directory walk
and per-file parsing are summarised by the `parses` list). -/
def buildIndexFrom
    (parses : List (String × (List (String × SymbolInfo) × FileInfo))) : Idx :=
  parses.foldl (fun idx p => indexFileWith idx p.1 p.2.1 p.2.2) emptyIdx

/-- `CodeIndexer._on_file_change`: on `deleted`, drop the `files` entry
and the first `file_list` occurrence, leaving `symbols` untouched; on
`created`/`modified`, re-run `_index_file` (its parse outcome is
`parseResult`; `none` models a missing file or a failed parse, where
the index is left unchanged). -/
def onFileChange (idx : Idx) (relPath : String) (event : String)
    (parseResult : Option (List (String × SymbolInfo) × FileInfo)) : Idx :=
  if event == "deleted" then
    { files :=
        if dictHasKey idx.files relPath then dictDelete idx.files relPath
        else idx.files
      symbols := idx.symbols
      file_list :=
        if relPath ∈ idx.file_list then listRemoveFirst idx.file_list relPath
        else idx.file_list }
  else
    match parseResult with
    | some (syms, fi) => indexFileWith idx relPath syms fi
    | none => idx

/-- What the cache directory holds at construction time. -/
inductive CacheState where
  | missing
  | corrupt
  | valid (snapshot : Idx)
deriving Repr, DecidableEq

/-- The `index_data` attribute of a `CodeIndexer`; `none` is the empty
dict `{}`. -/
structure IndexerState where
  index_data : Option Idx
deriving Repr, DecidableEq

/-- `CodeIndexer.__init__` (lines 659-671): `index_data` is set to the
empty dict `{}`; no statement of the constructor reads the cache file
(`_load_index` has no caller anywhere in the repository). -/
def codeIndexerInit (cache : CacheState) : IndexerState :=
  { index_data := none }

/-- `CodeIndexer._load_index`: returns `false` when the cache file is
missing or unpacking raises (the exception is caught and logged), and
installs the unpacked snapshot returning `true` otherwise. -/
def loadIndex (st : IndexerState) (cache : CacheState) : Bool × IndexerState :=
  match cache with
  | .missing => (false, st)
  | .corrupt => (false, st)
  | .valid snap => (true, { st with index_data := some snap })

/-- `CodeIndexer.find_files`: empty-dict `index_data` short-circuits to
`[]`; otherwise keep the `file_list` entries whose full path or
basename matches the glob, and sort. -/
def find_files (index_data : Option Idx) (pattern : String) : List String :=
  match index_data with
  | none => []
  | some d =>
    List.insertionSort (fun a b => a ≤ b)
      (d.file_list.filter (fun fp =>
        fnmatch fp pattern || fnmatch (pyBasename fp) pattern))

/-- Result of `CodeIndexer.analyse_file`. -/
inductive AnalyseResult where
  | ok (file_path : String) (file_info : FileInfo)
       (symbols : List (String × SymbolInfo))
  | err (msg : String)
deriving Repr, DecidableEq

/-- `CodeIndexer.analyse_file`, taking the project-relative path (the
absolute-to-relative normalisation of lines 892-895 is the identity on
paths already relative to the project). -/
def analyse_file (basePath : String) (index_data : Option Idx)
    (relPath : String) : AnalyseResult :=
  match index_data with
  | none => .err "No project indexed"
  | some d =>
    match dictGet? d.files relPath with
    | some fi =>
      .ok relPath fi
        (d.symbols.filter (fun p => p.2.file == pyPathJoin basePath relPath))
    | none => .err ("File not found in index: " ++ relPath)

/-! ### Search tool adapter (`SearchTool`) -/

/-- `SearchTool._parse_search_output`, per line: requires a colon,
splits on the first two colons, and keeps the line only when it has
three fields with an integer second field. -/
def parse_line (line : String) : Option SearchResult :=
  if pyIn ":" line then
    match splitMax ':' line.data 2 with
    | [f, n, c] =>
      match pyInt ⟨n⟩ with
      | some k => some { file := ⟨f⟩, line_number := k, line_content := ⟨c⟩ }
      | none => none
    | _ => none
  else none

/-- `output.strip().split('\n')`: the lines scanned by
`_parse_search_output`. -/
def outputLines (output : String) : List String :=
  (splitAllChar '\n' (pyStrip output).data).map (fun l => (⟨l⟩ : String))

/-- `SearchTool._parse_search_output` over the whole stdout. -/
def parse_search_output (output : String) : List SearchResult :=
  (outputLines output).filterMap parse_line

/-- The spec's wording of the per-line parse, for comparison with
`parse_line`: split the line on its first two colons into
`(file, line_number, content)`; keep it only when it has that
three-field shape with an integer second field. -/
def shape_line (line : String) : Option SearchResult :=
  match splitMax ':' line.data 2 with
  | [f, n, c] =>
    match pyInt ⟨n⟩ with
    | some k => some { file := ⟨f⟩, line_number := k, line_content := ⟨c⟩ }
    | none => none
  | _ => none

/-- `str(subprocess.CalledProcessError(returncode, cmd))` for a
positive exit status. -/
def calledProcessErrorStr (cmd : List String) (returncode : Int) : String :=
  "Command '" ++ pyReprList cmd ++ "' returned non-zero exit status " ++
    toString returncode ++ "."

/-- Outcome of `SearchTool._execute_search`. -/
inductive SearchExec where
  | ok (results : List SearchResult)
  | failed (msg : String)
deriving Repr, DecidableEq

/-- `SearchTool._execute_search`, given the subprocess outcome: exit 0
parses stdout, exit 1 is the grep-family "no matches" and yields `[]`,
and any other exit status raises
`RuntimeError(f"Search command failed: {e}")` whose message wraps the
`CalledProcessError` string (command and status; stderr is captured by
`subprocess.run` but never interpolated). -/
def execute_search (cmd : List String) (returncode : Int)
    (stdout stderrText : String) : SearchExec :=
  if returncode == 0 then .ok (parse_search_output stdout)
  else if returncode == 1 then .ok []
  else .failed ("Search command failed: " ++ calledProcessErrorStr cmd returncode)

/-- Result of `CodeIndexer.search_code`. -/
inductive SearchCodeResult where
  | ok (results : List SearchResult) (total_matches : Nat) (search_tool : String)
  | err (msg : String)
deriving Repr, DecidableEq

/-- `CodeIndexer.search_code` around `SearchTool.search`: a successful
search yields the result list, its length as `total_matches` and the
tool name; a raised exception is caught and wrapped as
`{"error": f"Search failed: {e}"}`. -/
def search_code (tool : String) (cmd : List String) (returncode : Int)
    (stdout stderrText : String) : SearchCodeResult :=
  match execute_search cmd returncode stdout stderrText with
  | .ok rs => .ok rs rs.length tool
  | .failed m => .err ("Search failed: " ++ m)

/-! ### Symbol graph queries (`ai_agent_tools.py`) -/

/-- Name extraction shared by the two queries
(`symbol_id.split("::")[-1]`): the part after the last `::`, or the
whole id when it contains none. -/
def symbolNameOf (id : String) : String :=
  match afterLast "::".data id.data with
  | some l => ⟨l⟩
  | none => id

/-- The matching rule of `find_symbol_usage` (line 214): lowercased
substring, `.name` suffix, or equality. -/
def fsuPred (symbolName : String) (id : String) : Bool :=
  let name := symbolNameOf id
  pyIn (pyLower symbolName) (pyLower name) ||
    pyEndsWith name ("." ++ symbolName) || name == symbolName

/-- One match returned by `find_symbol_usage`. -/
structure UsageMatch where
  symbol_id : String
  symbol_name : String
  info : SymbolInfo
deriving Repr, DecidableEq

/-- `find_symbol_usage` over the symbols map (the two initialisation
guards are handled by the caller passing a non-empty index). -/
def find_symbol_usage (symbols : List (String × SymbolInfo))
    (symbolName : String) (symbolType : Option String) : List UsageMatch :=
  symbols.filterMap (fun p =>
    if fsuPred symbolName p.1 then
      if (match symbolType with
          | none => true
          | some t => p.2.type == t) then
        some { symbol_id := p.1, symbol_name := symbolNameOf p.1, info := p.2 }
      else none
    else none)

/-- The matching rule of `find_functions_calling` (line 261): equality,
`.name` suffix, or case-sensitive substring. -/
def ffcPred (functionName : String) (id : String) : Bool :=
  let name := symbolNameOf id
  name == functionName || pyEndsWith name ("." ++ functionName) ||
    pyIn functionName name

/-- Result of `find_functions_calling`: `notFound` is the successful
empty result with the explanatory message. -/
inductive FFCResult where
  | notFound (function_name : String)
  | found (function_name target_symbol_id : String)
          (callers : List (String × SymbolInfo))
deriving Repr, DecidableEq

/-- `find_functions_calling`: resolve the first symbol id matching
`ffcPred`, then return one caller entry per `called_by` id still
present in the symbols map. -/
def find_functions_calling (symbols : List (String × SymbolInfo))
    (functionName : String) : FFCResult :=
  match symbols.find? (fun p => ffcPred functionName p.1) with
  | none => .notFound functionName
  | some t =>
    .found functionName t.1
      (t.2.called_by.filterMap (fun cid =>
        (dictGet? symbols cid).map (fun info => (cid, info))))

/-! ### `search_in_file` (`ai_agent_tools.py`, lines 335-398)

The regular-expression engine (`re.search`) is an external library
call; it is abstracted as a parameter `eng` returning the start index
of the first match, or `none`.  The code passes `pattern` and `line`
to it unmodified (case-sensitive), while the non-regex branch compares
`pattern.lower()` against `line.lower()`. -/

/-- One match returned by `search_in_file`. -/
structure FileMatch where
  line_number : Nat
  line_content : String
  match_start : Int
deriving Repr, DecidableEq

/-- The per-line match test: `re.search(pattern, line)` truthiness in
regex mode (pattern and line passed unmodified, hence case-sensitive),
`pattern.lower() in line.lower()` otherwise. -/
def lineHit (eng : String → String → Option Nat) (pattern : String)
    (isRegex : Bool) (line : String) : Bool :=
  if isRegex then (eng pattern line).isSome
  else pyIn (pyLower pattern) (pyLower line)

/-- The `match_start` field: `re.search(...).start()` guarded by the
dead `else 0` in regex mode, `line.lower().find(pattern.lower())`
otherwise. -/
def lineStart (eng : String → String → Option Nat) (pattern : String)
    (isRegex : Bool) (line : String) : Int :=
  if isRegex then
    (match eng pattern line with
     | some k => (k : Int)
     | none => 0)
  else pyFind (pyLower line) (pyLower pattern)

/-- The per-line loop of `search_in_file`, with `i` the 1-based number
of the first line of the remaining list (`enumerate(lines, 1)`). -/
def searchLinesFrom (eng : String → String → Option Nat) (pattern : String)
    (isRegex : Bool) : Nat → List String → List FileMatch
  | _, [] => []
  | i, line :: rest =>
    (if lineHit eng pattern isRegex line then
      [{ line_number := i, line_content := pyRstrip line,
         match_start := lineStart eng pattern isRegex line }]
     else []) ++ searchLinesFrom eng pattern isRegex (i + 1) rest

/-- `search_in_file` over the lines read by `readlines()`. -/
def search_in_file (eng : String → String → Option Nat)
    (fileLines : List String) (pattern : String) (isRegex : Bool) :
    List FileMatch :=
  searchLinesFrom eng pattern isRegex 1 fileLines

/-! ### Concrete inputs

The tree-sitter-java parse trees of the file contents used by the
claims, transcribed node for node (node type, source slice, start row,
start byte, children — named and anonymous, in source order). -/

/-- The file content of claim C1. -/
def contentOrder : String :=
  "class Order { void confirm(){ ship(); } void ship(){} }"

/-- tree-sitter-java parse tree of `contentOrder`. -/
def treeOrder : Node :=
  node "program" contentOrder 0 0
    [node "class_declaration" contentOrder 0 0
      [node "class" "class" 0 0 [],
       node "identifier" "Order" 0 6 [],
       node "class_body" "{ void confirm(){ ship(); } void ship(){} }" 0 12
         [node "\x7b" "\x7b" 0 12 [],
          node "method_declaration" "void confirm(){ ship(); }" 0 14
            [node "void_type" "void" 0 14 [],
             node "identifier" "confirm" 0 19 [],
             node "formal_parameters" "()" 0 26
               [node "(" "(" 0 26 [], node ")" ")" 0 27 []],
             node "block" "{ ship(); }" 0 28
               [node "\x7b" "\x7b" 0 28 [],
                node "expression_statement" "ship();" 0 30
                  [node "method_invocation" "ship()" 0 30
                     [node "identifier" "ship" 0 30 [],
                      node "argument_list" "()" 0 34
                        [node "(" "(" 0 34 [], node ")" ")" 0 35 []]],
                   node ";" ";" 0 36 []],
                node "\x7d" "\x7d" 0 38 []]],
          node "method_declaration" "void ship(){}" 0 40
            [node "void_type" "void" 0 40 [],
             node "identifier" "ship" 0 45 [],
             node "formal_parameters" "()" 0 49
               [node "(" "(" 0 49 [], node ")" ")" 0 50 []],
             node "block" "{}" 0 51
               [node "\x7b" "\x7b" 0 51 [], node "\x7d" "\x7d" 0 52 []]],
          node "\x7d" "\x7d" 0 54 []]]]

/-- The same class with `ship` declared before `confirm`. -/
def contentOrderDeclFirst : String :=
  "class Order { void ship(){} void confirm(){ ship(); } }"

/-- tree-sitter-java parse tree of `contentOrderDeclFirst`. -/
def treeOrderDeclFirst : Node :=
  node "program" contentOrderDeclFirst 0 0
    [node "class_declaration" contentOrderDeclFirst 0 0
      [node "class" "class" 0 0 [],
       node "identifier" "Order" 0 6 [],
       node "class_body" "{ void ship(){} void confirm(){ ship(); } }" 0 12
         [node "\x7b" "\x7b" 0 12 [],
          node "method_declaration" "void ship(){}" 0 14
            [node "void_type" "void" 0 14 [],
             node "identifier" "ship" 0 19 [],
             node "formal_parameters" "()" 0 23
               [node "(" "(" 0 23 [], node ")" ")" 0 24 []],
             node "block" "{}" 0 25
               [node "\x7b" "\x7b" 0 25 [], node "\x7d" "\x7d" 0 26 []]],
          node "method_declaration" "void confirm(){ ship(); }" 0 28
            [node "void_type" "void" 0 28 [],
             node "identifier" "confirm" 0 33 [],
             node "formal_parameters" "()" 0 40
               [node "(" "(" 0 40 [], node ")" ")" 0 41 []],
             node "block" "{ ship(); }" 0 42
               [node "\x7b" "\x7b" 0 42 [],
                node "expression_statement" "ship();" 0 44
                  [node "method_invocation" "ship()" 0 44
                     [node "identifier" "ship" 0 44 [],
                      node "argument_list" "()" 0 48
                        [node "(" "(" 0 48 [], node ")" ")" 0 49 []]],
                   node ";" ";" 0 50 []],
                node "\x7d" "\x7d" 0 52 []]],
          node "\x7d" "\x7d" 0 54 []]]]

/-- First parse of the re-index counterexample: a class `A` with a
method `m`. -/
def contentAm : String := "class A { void m(){} }"

/-- tree-sitter-java parse tree of `contentAm`. -/
def treeAm : Node :=
  node "program" contentAm 0 0
    [node "class_declaration" contentAm 0 0
      [node "class" "class" 0 0 [],
       node "identifier" "A" 0 6 [],
       node "class_body" "{ void m(){} }" 0 8
         [node "\x7b" "\x7b" 0 8 [],
          node "method_declaration" "void m(){}" 0 10
            [node "void_type" "void" 0 10 [],
             node "identifier" "m" 0 15 [],
             node "formal_parameters" "()" 0 16
               [node "(" "(" 0 16 [], node ")" ")" 0 17 []],
             node "block" "{}" 0 18
               [node "\x7b" "\x7b" 0 18 [], node "\x7d" "\x7d" 0 19 []]],
          node "\x7d" "\x7d" 0 21 []]]]

/-- Second parse of the re-index counterexample: the method renamed to
`n`. -/
def contentAn : String := "class A { void n(){} }"

/-- tree-sitter-java parse tree of `contentAn`. -/
def treeAn : Node :=
  node "program" contentAn 0 0
    [node "class_declaration" contentAn 0 0
      [node "class" "class" 0 0 [],
       node "identifier" "A" 0 6 [],
       node "class_body" "{ void n(){} }" 0 8
         [node "\x7b" "\x7b" 0 8 [],
          node "method_declaration" "void n(){}" 0 10
            [node "void_type" "void" 0 10 [],
             node "identifier" "n" 0 15 [],
             node "formal_parameters" "()" 0 16
               [node "(" "(" 0 16 [], node ")" ")" 0 17 []],
             node "block" "{}" 0 18
               [node "\x7b" "\x7b" 0 18 [], node "\x7d" "\x7d" 0 19 []]],
          node "\x7d" "\x7d" 0 21 []]]]

/-! ### Concrete values used by counterexamples and witnesses -/

/-- A `FileInfo` as produced for a one-line Java file without symbols. -/
def fiA : FileInfo :=
  { language := "java", line_count := 1, functions := [], classes := [],
    imports := [] }

/-- A class symbol, as the Java strategy emits for `class Foo {}`. -/
def sFoo : SymbolInfo := { type := "class", file := "f.java", line := 1 }

/-- A second symbol value for re-index scenarios. -/
def sBar : SymbolInfo := { type := "method", file := "a.java", line := 1 }

/-- A one-file index as `_build_index` produces it. -/
def idxA : Idx :=
  { files := [("a.java", fiA)], symbols := [("a.java::A", sFoo)],
    file_list := ["a.java"] }

/-! ### Helper lemmas -/

lemma containsSub_iff (a b : List Char) : containsSub a b = true ↔ a <:+: b := by
  induction b with
  | nil => simp [containsSub]
  | cons c r ih =>
    simp [containsSub, ih, List.infix_cons_iff]

lemma infix_map_char (f : Char → Char) {a b : List Char} (h : a <:+: b) :
    a.map f <:+: b.map f := by
  obtain ⟨s, t, rfl⟩ := h
  exact ⟨s.map f, t.map f, by simp⟩

lemma pyIn_lower {a b : String} (h : pyIn a b = true) :
    pyIn (pyLower a) (pyLower b) = true := by
  unfold pyIn at h ⊢
  rw [containsSub_iff] at h ⊢
  exact infix_map_char Char.toLower h

lemma pyEndsWith_dot_imp_pyIn {nm s : String}
    (h : pyEndsWith nm ("." ++ s) = true) : pyIn s nm = true := by
  unfold pyEndsWith at h
  rw [List.isSuffixOf_iff_suffix] at h
  unfold pyIn
  rw [containsSub_iff]
  obtain ⟨st, hst⟩ := h
  refine ⟨st ++ ("." : String).data, [], ?_⟩
  have hdata : ("." ++ s).data = ("." : String).data ++ s.data := by
    simp [String.data_append]
  rw [← hst, hdata]
  simp

lemma eq_imp_pyIn {nm s : String} (h : (nm == s) = true) : pyIn s nm = true := by
  have : nm = s := beq_iff_eq.mp h
  subst this
  unfold pyIn
  rw [containsSub_iff]

/-! Dict lemmas -/

lemma dictInsert_nil {α : Type} (k : String) (v : α) :
    dictInsert ([] : List (String × α)) k v = [(k, v)] := rfl

lemma dictInsert_cons {α : Type} (p : String × α) (rest : List (String × α))
    (k : String) (v : α) :
    dictInsert (p :: rest) k v =
      if p.1 == k then (k, v) :: rest else p :: dictInsert rest k v := rfl

lemma dictHasKey_nil {α : Type} (k : String) :
    dictHasKey ([] : List (String × α)) k = false := rfl

lemma dictHasKey_cons {α : Type} (p : String × α) (d : List (String × α))
    (k : String) :
    dictHasKey (p :: d) k = ((p.1 == k) || dictHasKey d k) := by
  simp [dictHasKey]

lemma dictHasKey_iff_mem_keys {α : Type} (d : List (String × α)) (k : String) :
    dictHasKey d k = true ↔ k ∈ d.map Prod.fst := by
  induction d with
  | nil => simp [dictHasKey_nil]
  | cons p rest ih =>
    rw [dictHasKey_cons]
    simp only [Bool.or_eq_true, ih, List.map_cons, List.mem_cons, beq_iff_eq]
    constructor
    · rintro (h | h)
      · exact Or.inl h.symm
      · exact Or.inr h
    · rintro (h | h)
      · exact Or.inl h.symm
      · exact Or.inr h

lemma dictHasKey_dictInsert_iff {α : Type} (d : List (String × α))
    (k : String) (v : α) (k' : String) :
    dictHasKey (dictInsert d k v) k' = true ↔
      (dictHasKey d k' = true ∨ k' = k) := by
  induction d with
  | nil =>
    rw [dictInsert_nil, dictHasKey_cons, dictHasKey_nil]
    simp only [Bool.or_false, Bool.or_eq_true, beq_iff_eq, Bool.false_eq_true,
      false_or]
    exact eq_comm
  | cons p rest ih =>
    rw [dictInsert_cons]
    by_cases h : p.1 == k
    · have hpk : p.1 = k := beq_iff_eq.mp h
      rw [if_pos h, dictHasKey_cons, dictHasKey_cons, hpk]
      simp only [Bool.or_eq_true, beq_iff_eq]
      constructor
      · exact Or.inl
      · rintro (hh | hh)
        · exact hh
        · exact Or.inl hh.symm
    · rw [if_neg h, dictHasKey_cons, dictHasKey_cons]
      simp only [Bool.or_eq_true, ih]
      tauto

lemma keys_dictInsert_mem {α : Type} (d : List (String × α)) (k : String)
    (v : α) (hk : dictHasKey d k = true) :
    (dictInsert d k v).map Prod.fst = d.map Prod.fst := by
  induction d with
  | nil => simp [dictHasKey_nil] at hk
  | cons p rest ih =>
    rw [dictInsert_cons]
    by_cases h : p.1 == k
    · have hpk : p.1 = k := beq_iff_eq.mp h
      rw [if_pos h]
      simp [hpk]
    · rw [dictHasKey_cons] at hk
      simp only [h, Bool.false_or] at hk
      rw [if_neg h]
      simp [ih hk]

lemma keys_dictInsert_not_mem {α : Type} (d : List (String × α)) (k : String)
    (v : α) (hk : dictHasKey d k = false) :
    (dictInsert d k v).map Prod.fst = d.map Prod.fst ++ [k] := by
  induction d with
  | nil => simp [dictInsert_nil]
  | cons p rest ih =>
    rw [dictHasKey_cons] at hk
    have h1 : (p.1 == k) = false := by
      cases hpk : (p.1 == k) <;> simp [hpk] at hk ⊢
    have h2 : dictHasKey rest k = false := by
      cases hr : dictHasKey rest k <;> simp [h1, hr] at hk ⊢
    rw [dictInsert_cons, if_neg (by simp [h1])]
    simp [ih h2]

lemma keys_nodup_dictInsert {α : Type} (d : List (String × α)) (k : String)
    (v : α) (hd : (d.map Prod.fst).Nodup) :
    ((dictInsert d k v).map Prod.fst).Nodup := by
  cases hk : dictHasKey d k
  · rw [keys_dictInsert_not_mem d k v hk]
    have hkmem : k ∉ d.map Prod.fst := by
      intro hmem
      rw [← dictHasKey_iff_mem_keys] at hmem
      rw [hk] at hmem
      exact Bool.false_ne_true hmem
    simp [List.nodup_append, hd, hkmem]
  · rw [keys_dictInsert_mem d k v hk]
    exact hd

lemma dictGet?_dictInsert_ne {α : Type} (d : List (String × α)) (k : String)
    (v : α) (k' : String) (hne : k' ≠ k) :
    dictGet? (dictInsert d k v) k' = dictGet? d k' := by
  induction d with
  | nil =>
    have : (k == k') = false := by
      cases h : (k == k')
      · rfl
      · exact absurd (beq_iff_eq.mp h).symm hne
    simp [dictInsert, dictGet?, List.find?, this]
  | cons p rest ih =>
    by_cases h : p.1 == k
    · have hpk : p.1 = k := beq_iff_eq.mp h
      have hkk' : (k == k') = false := by
        cases hq : (k == k')
        · rfl
        · exact absurd (beq_iff_eq.mp hq).symm hne
      have hpk' : (p.1 == k') = false := by rw [hpk]; exact hkk'
      simp [dictInsert, h, dictGet?, List.find?, hkk', hpk']
    · by_cases h' : p.1 == k'
      · simp [dictInsert, h, dictGet?, List.find?, h']
      · simp only [dictInsert, h, if_false, Bool.false_eq_true]
        simp [dictGet?, List.find?, h'] at ih ⊢
        exact ih

lemma dictUpdateWith_nil {α : Type} (d : List (String × α)) :
    dictUpdateWith d [] = d := rfl

lemma dictUpdateWith_cons {α : Type} (d : List (String × α)) (q : String × α)
    (rest : List (String × α)) :
    dictUpdateWith d (q :: rest) = dictUpdateWith (dictInsert d q.1 q.2) rest :=
  rfl

lemma dictHasKey_dictUpdateWith_iff {α : Type} (new d : List (String × α))
    (k : String) :
    dictHasKey (dictUpdateWith d new) k = true ↔
      (dictHasKey d k = true ∨ dictHasKey new k = true) := by
  induction new generalizing d with
  | nil => simp [dictUpdateWith_nil, dictHasKey]
  | cons q rest ih =>
    rw [dictUpdateWith_cons, ih, dictHasKey_dictInsert_iff, dictHasKey_cons]
    simp only [Bool.or_eq_true, beq_iff_eq]
    have hsym : k = q.1 ↔ q.1 = k := eq_comm
    rw [hsym]
    tauto

lemma keys_nodup_dictUpdateWith {α : Type} (new d : List (String × α))
    (hd : (d.map Prod.fst).Nodup) :
    ((dictUpdateWith d new).map Prod.fst).Nodup := by
  induction new generalizing d with
  | nil => exact hd
  | cons q rest ih =>
    rw [dictUpdateWith_cons]
    exact ih _ (keys_nodup_dictInsert _ _ _ hd)

lemma dictGet?_dictUpdateWith_not_hasKey {α : Type} (new d : List (String × α))
    (k : String) (hk : dictHasKey new k = false) :
    dictGet? (dictUpdateWith d new) k = dictGet? d k := by
  induction new generalizing d with
  | nil => rfl
  | cons q rest ih =>
    rw [dictHasKey_cons] at hk
    have h1 : (q.1 == k) = false := by
      cases hq : (q.1 == k) <;> simp [hq] at hk ⊢
    have h2 : dictHasKey rest k = false := by
      cases hr : dictHasKey rest k <;> simp [h1, hr] at hk ⊢
    have hne : k ≠ q.1 := by
      intro he
      rw [he] at h1
      simp at h1
    rw [dictUpdateWith_cons, ih _ h2, dictGet?_dictInsert_ne _ _ _ _ hne]

lemma dictHasKey_dictDelete_self {α : Type} (d : List (String × α))
    (k : String) : dictHasKey (dictDelete d k) k = false := by
  induction d with
  | nil => rfl
  | cons p rest ih =>
    by_cases h : p.1 == k
    · have : (p.1 != k) = false := by simp [bne, h]
      simpa [dictDelete, this] using ih
    · have : (p.1 != k) = true := by simp [bne, h]
      simpa [dictDelete, this, dictHasKey_cons, h] using ih

lemma dictGet?_eq_none_of_hasKey_false {α : Type} (d : List (String × α))
    (k : String) (h : dictHasKey d k = false) : dictGet? d k = none := by
  unfold dictGet?
  have hfind : List.find? (fun p => p.1 == k) d = none := by
    rw [List.find?_eq_none]
    intro p hp hpk
    have hany : d.any (fun p => p.1 == k) = true :=
      List.any_eq_true.mpr ⟨p, hp, hpk⟩
    unfold dictHasKey at h
    rw [h] at hany
    exact Bool.false_ne_true hany
  rw [hfind]
  rfl

lemma not_mem_listRemoveFirst_of_count_le_one (l : List String) (p : String)
    (h : l.count p ≤ 1) : p ∉ listRemoveFirst l p := by
  induction l with
  | nil => simp [listRemoveFirst]
  | cons x xs ih =>
    by_cases hx : x == p
    · have hxp : x = p := beq_iff_eq.mp hx
      rw [List.count_cons] at h
      have : xs.count p = 0 := by
        subst hxp
        simp at h
        omega
      have hnot : p ∉ xs := by
        rw [← List.count_eq_zero]
        exact this
      simpa [listRemoveFirst, hx] using hnot
    · have hxp : x ≠ p := fun he => hx (beq_iff_eq.mpr he)
      rw [List.count_cons] at h
      have hcount : xs.count p ≤ 1 := by
        by_cases hpe : x == p
        · exact absurd hpe hx
        · simp [hpe] at h
          omega
      simp only [listRemoveFirst, hx, if_false, Bool.false_eq_true]
      intro hmem
      rcases List.mem_cons.mp hmem with he | hm
      · exact hxp he.symm
      · exact ih hcount hm

lemma ffcPred_imp_fsuPred (name id : String) (h : ffcPred name id = true) :
    fsuPred name id = true := by
  simp only [ffcPred, Bool.or_eq_true] at h
  simp only [fsuPred, Bool.or_eq_true]
  rcases h with (h | h) | h
  · exact Or.inr h
  · exact Or.inl (Or.inr h)
  · exact Or.inl (Or.inl (pyIn_lower h))

lemma singleton_infix_iff_mem (c : Char) (l : List Char) :
    [c] <:+: l ↔ c ∈ l := by
  constructor
  · intro h
    exact h.subset (List.mem_singleton_self c)
  · intro h
    obtain ⟨s, t, rfl⟩ := List.append_of_mem h
    exact ⟨s, t, by simp⟩

lemma splitMax_of_not_mem (sep : Char) (l : List Char) (n : Nat)
    (h : sep ∉ l) : splitMax sep l (n + 1) = [l] := by
  simp [splitMax, h]

lemma parse_line_eq_shape_line (line : String) :
    parse_line line = shape_line line := by
  unfold parse_line shape_line
  cases hc : pyIn ":" line
  · have hmem : ':' ∉ line.data := by
      intro hm
      have hinf : [':'] <:+: line.data := (singleton_infix_iff_mem ':' _).mpr hm
      have : containsSub [':'] line.data = true := (containsSub_iff _ _).mpr hinf
      have hdata : (":" : String).data = [':'] := rfl
      unfold pyIn at hc
      rw [hdata] at hc
      rw [hc] at this
      exact Bool.false_ne_true this
    rw [splitMax_of_not_mem ':' line.data 1 hmem]
    simp
  · simp [hc]

lemma length_filterMap_eq_countP {α β : Type} (f : α → Option β)
    (l : List α) :
    (l.filterMap f).length = l.countP (fun a => (f a).isSome) := by
  induction l with
  | nil => rfl
  | cons a rest ih =>
    cases hf : f a <;>
      simp [List.filterMap_cons, hf, List.countP_cons, ih]

/-! Build-invariant helper for C3 -/

lemma build_invariant_aux
    (parses : List (String × (List (String × SymbolInfo) × FileInfo))) :
    ∀ idx : Idx,
      idx.files.map Prod.fst = idx.file_list →
      idx.file_list.Nodup →
      (∀ r ∈ parses.map Prod.fst, r ∉ idx.file_list) →
      (parses.map Prod.fst).Nodup →
      ((parses.foldl (fun acc p => indexFileWith acc p.1 p.2.1 p.2.2)
          idx).files.map Prod.fst =
        (parses.foldl (fun acc p => indexFileWith acc p.1 p.2.1 p.2.2)
          idx).file_list ∧
       (parses.foldl (fun acc p => indexFileWith acc p.1 p.2.1 p.2.2)
          idx).file_list.Nodup ∧
       (parses.foldl (fun acc p => indexFileWith acc p.1 p.2.1 p.2.2)
          idx).file_list = idx.file_list ++ parses.map Prod.fst) := by
  induction parses with
  | nil =>
    intro idx hkeys hnodup _ _
    simpa using ⟨hkeys, hnodup⟩
  | cons q rest ih =>
    intro idx hkeys hnodup hfresh hpnodup
    have hqfresh : q.1 ∉ idx.file_list := hfresh q.1 (by simp)
    have hhas : dictHasKey idx.files q.1 = false := by
      cases hh : dictHasKey idx.files q.1
      · rfl
      · exfalso
        have := (dictHasKey_iff_mem_keys idx.files q.1).mp hh
        rw [hkeys] at this
        exact hqfresh this
    have hkeys1 :
        (indexFileWith idx q.1 q.2.1 q.2.2).files.map Prod.fst =
          (indexFileWith idx q.1 q.2.1 q.2.2).file_list := by
      unfold indexFileWith
      rw [keys_dictInsert_not_mem _ _ _ hhas, hkeys]
    have hlist1 :
        (indexFileWith idx q.1 q.2.1 q.2.2).file_list =
          idx.file_list ++ [q.1] := rfl
    have hnodup1 : (indexFileWith idx q.1 q.2.1 q.2.2).file_list.Nodup := by
      rw [hlist1]
      simp [List.nodup_append, hnodup, hqfresh]
    have hfresh1 :
        ∀ r ∈ rest.map Prod.fst,
          r ∉ (indexFileWith idx q.1 q.2.1 q.2.2).file_list := by
      intro r hr
      rw [hlist1]
      intro hmem
      rcases List.mem_append.mp hmem with hm | hm
      · exact hfresh r (by simp [hr]) hm
      · have hrq : r = q.1 := by simpa using hm
        have : q.1 ∉ rest.map Prod.fst := by
          have := hpnodup
          simp only [List.map_cons, List.nodup_cons] at this
          exact this.1
        rw [hrq] at hr
        exact this hr
    have hpnodup1 : (rest.map Prod.fst).Nodup := by
      simp only [List.map_cons, List.nodup_cons] at hpnodup
      exact hpnodup.2
    have hstep := ih (indexFileWith idx q.1 q.2.1 q.2.2) hkeys1 hnodup1
      hfresh1 hpnodup1
    simp only [List.foldl_cons]
    refine ⟨hstep.1, hstep.2.1, ?_⟩
    rw [hstep.2.2, hlist1]
    simp

/-! `searchLinesFrom` characterisation for C10 -/

lemma searchLinesFrom_sound (eng : String → String → Option Nat)
    (pattern : String) (isRegex : Bool) :
    ∀ (lines : List String) (start : Nat) (m : FileMatch),
      m ∈ searchLinesFrom eng pattern isRegex start lines →
      ∃ (i : Nat) (h : i < lines.length),
        m.line_number = start + i ∧
        m.line_content = pyRstrip (lines.get ⟨i, h⟩) ∧
        m.match_start = lineStart eng pattern isRegex (lines.get ⟨i, h⟩) ∧
        lineHit eng pattern isRegex (lines.get ⟨i, h⟩) = true := by
  intro lines
  induction lines with
  | nil =>
    intro start m hm
    simp [searchLinesFrom] at hm
  | cons line rest ih =>
    intro start m hm
    unfold searchLinesFrom at hm
    rcases List.mem_append.mp hm with hleft | hright
    · cases hhit : lineHit eng pattern isRegex line
      · rw [hhit] at hleft
        simp at hleft
      · rw [hhit] at hleft
        simp only [if_true, List.mem_singleton] at hleft
        refine ⟨0, by simp, ?_, ?_, ?_, ?_⟩ <;> simp [hleft, hhit]
    · obtain ⟨i, h, h1, h2, h3, h4⟩ := ih (start + 1) m hright
      refine ⟨i + 1, by simpa using h, ?_, ?_, ?_, ?_⟩
      · rw [h1]; omega
      · simpa using h2
      · simpa using h3
      · simpa using h4

lemma searchLinesFrom_complete (eng : String → String → Option Nat)
    (pattern : String) (isRegex : Bool) :
    ∀ (lines : List String) (start : Nat) (i : Nat) (h : i < lines.length),
      lineHit eng pattern isRegex (lines.get ⟨i, h⟩) = true →
      ({ line_number := start + i,
         line_content := pyRstrip (lines.get ⟨i, h⟩),
         match_start := lineStart eng pattern isRegex (lines.get ⟨i, h⟩) } :
          FileMatch) ∈ searchLinesFrom eng pattern isRegex start lines := by
  intro lines
  induction lines with
  | nil =>
    intro start i h
    simp at h
  | cons line rest ih =>
    intro start i h hhit
    unfold searchLinesFrom
    cases i with
    | zero =>
      simp only [List.get] at hhit ⊢
      rw [hhit]
      apply List.mem_append_left
      simp
    | succ j =>
      apply List.mem_append_right
      have hj : j < rest.length := by simpa using h
      have := ih (start + 1) j hj (by simpa using hhit)
      have harith : start + 1 + j = start + (j + 1) := by omega
      rw [harith] at this
      simpa using this

/-! ### Claim theorems -/

/-- C1 (counterexample): after indexing a Java file with content
`class Order { void confirm(){ ship(); } void ship(){} }`,
`find_functions_calling("ship")` resolves the target `Order.ship` but
returns an empty caller list — not the single caller `Order.confirm`
the claim requires — because the call site precedes the declaration of
`ship` and the single-pass `symbol_lookup` cannot resolve forward
references. -/
theorem C1_counterexample :
    find_functions_calling
      (indexFileWith emptyIdx "Order.java"
        (parse_file_java 16 "/proj/Order.java" treeOrder contentOrder).1
        (parse_file_java 16 "/proj/Order.java" treeOrder contentOrder).2).symbols
      "ship" =
      FFCResult.found "ship" "/proj/Order.java::Order.ship" [] := by
  decide

/-- C1 (amended): on the content as given, `find_functions_calling("ship")`
returns zero callers (the call to `ship` precedes its declaration, and
the traversal-order lookup does not resolve forward references); with
the declarations reordered as
`class Order { void ship(){} void confirm(){ ship(); } }` it returns
exactly one caller, the method `Order.confirm`. -/
theorem C1_amended :
    find_functions_calling
      (indexFileWith emptyIdx "Order.java"
        (parse_file_java 16 "/proj/Order.java" treeOrder contentOrder).1
        (parse_file_java 16 "/proj/Order.java" treeOrder contentOrder).2).symbols
      "ship" =
      FFCResult.found "ship" "/proj/Order.java::Order.ship" [] ∧
    find_functions_calling
      (indexFileWith emptyIdx "Order.java"
        (parse_file_java 16 "/proj/Order.java" treeOrderDeclFirst
          contentOrderDeclFirst).1
        (parse_file_java 16 "/proj/Order.java" treeOrderDeclFirst
          contentOrderDeclFirst).2).symbols
      "ship" =
      FFCResult.found "ship" "/proj/Order.java::Order.ship"
        [("/proj/Order.java::Order.confirm",
          { type := "method", file := "/proj/Order.java", line := 1,
            signature := some "void confirm(){ ship(); }",
            called_by := [] })] := by
  constructor
  · decide
  · decide

/-- C2 (counterexample): re-indexing `A.java` after renaming method `m`
to `n` (the watcher's `modified` path) leaves the stale symbol
`A.m` in the index even though the latest parse does not produce it —
old symbols are not removed first. -/
theorem C2_counterexample :
    dictHasKey
      (Idx.symbols
        (onFileChange
          (indexFileWith emptyIdx "A.java"
            (parse_file_java 16 "/proj/A.java" treeAm contentAm).1
            (parse_file_java 16 "/proj/A.java" treeAm contentAm).2)
          "A.java" "modified"
          (some (parse_file_java 16 "/proj/A.java" treeAn contentAn))))
      "/proj/A.java::A.m" = true ∧
    dictHasKey (parse_file_java 16 "/proj/A.java" treeAn contentAn).1
      "/proj/A.java::A.m" = false := by
  constructor
  · decide
  · decide

/-- C2 (amended): an incremental re-index does not remove the file's
previous Symbols: it `dict.update`s the symbols map, so a SymbolId of
the index survives exactly when it was present before or appears in
the new parse (stale ids persist with their old values), while the map
still holds at most one Symbol per SymbolId. -/
theorem C2_amended (idx : Idx) (rel : String)
    (syms : List (String × SymbolInfo)) (fi : FileInfo) :
    (∀ k, dictHasKey (indexFileWith idx rel syms fi).symbols k = true ↔
       (dictHasKey idx.symbols k = true ∨ dictHasKey syms k = true)) ∧
    ((idx.symbols.map Prod.fst).Nodup →
       ((indexFileWith idx rel syms fi).symbols.map Prod.fst).Nodup) ∧
    (∀ k, dictHasKey syms k = false →
       dictGet? (indexFileWith idx rel syms fi).symbols k =
         dictGet? idx.symbols k) := by
  refine ⟨?_, ?_, ?_⟩
  · intro k
    exact dictHasKey_dictUpdateWith_iff syms idx.symbols k
  · intro hnd
    exact keys_nodup_dictUpdateWith syms idx.symbols hnd
  · intro k hk
    exact dictGet?_dictUpdateWith_not_hasKey syms idx.symbols k hk

/-- C2 (witness for the amended theorem): concrete re-index of a
one-symbol index with a disjoint parse keeps unique keys and leaves
the untouched symbol's value readable. -/
theorem C2_witness :
    (((idxA.symbols).map Prod.fst).Nodup ∧
      dictHasKey [("a.java::B", sBar)] "a.java::A" = false) ∧
    (((indexFileWith idxA "a.java" [("a.java::B", sBar)] fiA).symbols.map
        Prod.fst).Nodup ∧
      dictGet? (indexFileWith idxA "a.java" [("a.java::B", sBar)] fiA).symbols
        "a.java::A" = dictGet? idxA.symbols "a.java::A") :=
  ⟨⟨by decide, by decide⟩,
   (C2_amended idxA "a.java" [("a.java::B", sBar)] fiA).2.1 (by decide),
   (C2_amended idxA "a.java" [("a.java::B", sBar)] fiA).2.2 "a.java::A"
     (by decide)⟩

/-- C3 (counterexample): a watcher `modified` event on an
already-indexed file appends a duplicate `file_list` entry, and a
subsequent `deleted` event removes the `files` entry but only the
first `file_list` occurrence, leaving a `file_list` entry with no
`files` counterpart. -/
theorem C3_counterexample :
    (onFileChange (buildIndexFrom [("a.java", ([], fiA))]) "a.java" "modified"
        (some ([], fiA))).file_list = ["a.java", "a.java"] ∧
    (onFileChange
        (onFileChange (buildIndexFrom [("a.java", ([], fiA))]) "a.java"
          "modified" (some ([], fiA)))
        "a.java" "deleted" none).files = [] ∧
    (onFileChange
        (onFileChange (buildIndexFrom [("a.java", ([], fiA))]) "a.java"
          "modified" (some ([], fiA)))
        "a.java" "deleted" none).file_list = ["a.java"] := by
  refine ⟨?_, ?_, ?_⟩ <;> decide

/-- C3 (amended): after a full build over pairwise-distinct relative
paths, `file_list` has no duplicates and equals the key list of
`files` (both equal the walked path list in order); watcher
`created`/`modified` events on an already-indexed path append
duplicates, and `deleted` then removes only the first occurrence, so
the property does not survive arbitrary watcher event sequences. -/
theorem C3_amended
    (parses : List (String × (List (String × SymbolInfo) × FileInfo)))
    (h : (parses.map Prod.fst).Nodup) :
    (buildIndexFrom parses).files.map Prod.fst =
      (buildIndexFrom parses).file_list ∧
    (buildIndexFrom parses).file_list.Nodup ∧
    (buildIndexFrom parses).file_list = parses.map Prod.fst := by
  have := build_invariant_aux parses emptyIdx rfl List.nodup_nil
    (by intro r _; simp [emptyIdx]) h
  unfold buildIndexFrom
  refine ⟨this.1, this.2.1, ?_⟩
  rw [this.2.2]
  simp [emptyIdx]

/-- C3 (witness for the amended theorem): a concrete one-file build
satisfies the invariant. -/
theorem C3_witness :
    ((([("a.java", (([] : List (String × SymbolInfo)), fiA))]).map
        Prod.fst).Nodup) ∧
    ((buildIndexFrom [("a.java", ([], fiA))]).files.map Prod.fst =
        (buildIndexFrom [("a.java", ([], fiA))]).file_list ∧
      (buildIndexFrom [("a.java", ([], fiA))]).file_list.Nodup ∧
      (buildIndexFrom [("a.java", ([], fiA))]).file_list =
        ([("a.java", (([] : List (String × SymbolInfo)), fiA))]).map
          Prod.fst) :=
  ⟨by decide, C3_amended [("a.java", ([], fiA))] (by decide)⟩

/-- C4 (counterexample): constructing the indexer over a cache
directory holding a valid non-empty snapshot still yields an empty
`index_data` — the snapshot is not loaded, contradicting the claim
that the indexer starts populated from a valid snapshot. -/
theorem C4_counterexample :
    (codeIndexerInit (CacheState.valid idxA)).index_data = none ∧
    (codeIndexerInit (CacheState.valid idxA)).index_data ≠ some idxA := by
  constructor
  · rfl
  · intro h
    exact Option.noConfusion h

/-- C4 (amended): construction never attempts the load — `index_data`
starts as the empty dict whatever the cache holds (`_load_index` has
no caller in the repository), so construction trivially succeeds on a
missing or corrupt cache; `_load_index` itself, were it called, would
return `false` leaving the state unchanged on a missing or corrupt
cache file and install a valid snapshot returning `true`. -/
theorem C4_amended (cache : CacheState) (st : IndexerState) :
    (codeIndexerInit cache).index_data = none ∧
    loadIndex st CacheState.missing = (false, st) ∧
    loadIndex st CacheState.corrupt = (false, st) ∧
    (∀ snap, loadIndex st (CacheState.valid snap) =
      (true, { st with index_data := some snap })) :=
  ⟨rfl, rfl, rfl, fun _ => rfl⟩

/-- C5: for an indexed path `p` (appearing at most once in
`file_list`, as every full build produces), a `deleted` watcher event
removes `p` from the `files` map and from `file_list` while leaving
the `symbols` map unchanged — so `find_symbol_usage` and
`find_functions_calling` still answer from the deleted file's symbols
— and a subsequent `analyse_file(p)` returns the not-indexed error. -/
theorem C5_delete_frame (basePath : String) (idx : Idx) (p : String)
    (hindexed : dictHasKey idx.files p = true)
    (hcount : idx.file_list.count p ≤ 1) :
    (onFileChange idx p "deleted" none).symbols = idx.symbols ∧
    dictHasKey (onFileChange idx p "deleted" none).files p = false ∧
    p ∉ (onFileChange idx p "deleted" none).file_list ∧
    analyse_file basePath (some (onFileChange idx p "deleted" none)) p =
      AnalyseResult.err ("File not found in index: " ++ p) ∧
    (∀ name ty,
      find_symbol_usage (onFileChange idx p "deleted" none).symbols name ty =
        find_symbol_usage idx.symbols name ty) ∧
    (∀ name,
      find_functions_calling (onFileChange idx p "deleted" none).symbols name =
        find_functions_calling idx.symbols name) := by
  have hsym : (onFileChange idx p "deleted" none).symbols = idx.symbols := rfl
  have hf : (onFileChange idx p "deleted" none).files =
      (if dictHasKey idx.files p then dictDelete idx.files p
       else idx.files) := rfl
  have hfl : (onFileChange idx p "deleted" none).file_list =
      (if p ∈ idx.file_list then listRemoveFirst idx.file_list p
       else idx.file_list) := rfl
  have hfiles : dictHasKey (onFileChange idx p "deleted" none).files p =
      false := by
    rw [hf, if_pos hindexed]
    exact dictHasKey_dictDelete_self idx.files p
  have hnotmem : p ∉ (onFileChange idx p "deleted" none).file_list := by
    rw [hfl]
    by_cases hm : p ∈ idx.file_list
    · rw [if_pos hm]
      exact not_mem_listRemoveFirst_of_count_le_one _ _ hcount
    · rw [if_neg hm]
      exact hm
  refine ⟨hsym, hfiles, hnotmem, ?_, ?_, ?_⟩
  · have hnone : dictGet? (onFileChange idx p "deleted" none).files p = none :=
      dictGet?_eq_none_of_hasKey_false _ _ hfiles
    simp [analyse_file, hnone]
  · intro name ty
    rw [hsym]
  · intro name
    rw [hsym]

/-- C5 (witness): the frame property at a concrete one-file index. -/
theorem C5_witness :
    (dictHasKey idxA.files "a.java" = true ∧
      idxA.file_list.count "a.java" ≤ 1) ∧
    ((onFileChange idxA "a.java" "deleted" none).symbols = idxA.symbols ∧
     dictHasKey (onFileChange idxA "a.java" "deleted" none).files "a.java" =
       false ∧
     "a.java" ∉ (onFileChange idxA "a.java" "deleted" none).file_list ∧
     analyse_file "/proj" (some (onFileChange idxA "a.java" "deleted" none))
       "a.java" = AnalyseResult.err ("File not found in index: " ++ "a.java") ∧
     (∀ name ty,
       find_symbol_usage (onFileChange idxA "a.java" "deleted" none).symbols
         name ty = find_symbol_usage idxA.symbols name ty) ∧
     (∀ name,
       find_functions_calling
         (onFileChange idxA "a.java" "deleted" none).symbols name =
         find_functions_calling idxA.symbols name)) :=
  ⟨⟨by decide, by decide⟩,
   C5_delete_frame "/proj" idxA "a.java" (by decide) (by decide)⟩

/-- C6 (counterexample): an exit status of 2 with stderr `boom` is
mapped to an error, but the error message carries the command and exit
status from `CalledProcessError`, not the process stderr: `boom` does
not occur in it. -/
theorem C6_counterexample :
    search_code "grep" ["grep", "-rn", "pat", "/proj"] 2 "" "boom" =
      SearchCodeResult.err
        "Search failed: Search command failed: Command '['grep', '-rn', 'pat', '/proj']' returned non-zero exit status 2." ∧
    pyIn "boom"
      "Search failed: Search command failed: Command '['grep', '-rn', 'pat', '/proj']' returned non-zero exit status 2." =
      false := by
  constructor
  · decide
  · decide

/-- C6 (amended): exit code 1 yields a successful empty result with
`total_matches` 0; exit code 0 yields the parsed stdout; every other
exit code yields the wrapped `Search failed` error carrying the
command and exit status (stderr is captured but never interpolated),
never a successful result. -/
theorem C6_amended (tool : String) (cmd : List String) (returncode : Int)
    (stdout stderrText : String) :
    (returncode = 0 → search_code tool cmd returncode stdout stderrText =
       SearchCodeResult.ok (parse_search_output stdout)
         (parse_search_output stdout).length tool) ∧
    (returncode = 1 → search_code tool cmd returncode stdout stderrText =
       SearchCodeResult.ok [] 0 tool) ∧
    (returncode ≠ 0 → returncode ≠ 1 →
       search_code tool cmd returncode stdout stderrText =
         SearchCodeResult.err
           ("Search failed: " ++ ("Search command failed: " ++
             calledProcessErrorStr cmd returncode))) := by
  refine ⟨?_, ?_, ?_⟩
  · intro h
    subst h
    rfl
  · intro h
    subst h
    rfl
  · intro h0 h1
    have hb0 : (returncode == 0) = false := beq_eq_false_iff_ne.mpr h0
    have hb1 : (returncode == 1) = false := beq_eq_false_iff_ne.mpr h1
    simp [search_code, execute_search, hb0, hb1]

/-- C6 (witness for the amended theorem): both the no-match exit and a
failing exit at concrete inputs. -/
theorem C6_witness :
    search_code "grep" ["grep", "pat", "/p"] 1 "" "" =
      SearchCodeResult.ok [] 0 "grep" ∧
    search_code "grep" ["grep", "pat", "/p"] 2 "" "oops" =
      SearchCodeResult.err
        ("Search failed: " ++ ("Search command failed: " ++
          calledProcessErrorStr ["grep", "pat", "/p"] 2)) :=
  ⟨(C6_amended "grep" ["grep", "pat", "/p"] 1 "" "").2.1 rfl,
   (C6_amended "grep" ["grep", "pat", "/p"] 2 "" "oops").2.2
     (by decide) (by decide)⟩

/-- C7 (counterexample): the two queries do not share one matching
rule: `find_symbol_usage` lowercases its substring test while
`find_functions_calling` does not, so for a class `Foo` the query
`foo` yields one usage match but `find_functions_calling` returns the
"Function not found in index" empty result. -/
theorem C7_counterexample :
    (find_symbol_usage [("f.java::Foo", sFoo)] "foo" none).length = 1 ∧
    find_functions_calling [("f.java::Foo", sFoo)] "foo" =
      FFCResult.notFound "foo" := by
  constructor
  · decide
  · decide

/-- C7 (amended): `find_functions_calling` matches by equality, `.name`
suffix, or case-sensitive substring — strictly stronger than
`find_symbol_usage`'s case-insensitive rule — so the implication holds
in the converse direction only: whenever `find_functions_calling`
resolves a target, `find_symbol_usage` (without kind filter) returns
at least one match. -/
theorem C7_amended (symbols : List (String × SymbolInfo)) (name tid : String)
    (cs : List (String × SymbolInfo))
    (h : find_functions_calling symbols name = FFCResult.found name tid cs) :
    find_symbol_usage symbols name none ≠ [] := by
  unfold find_functions_calling at h
  cases hfind : symbols.find? (fun p => ffcPred name p.1) with
  | none =>
    rw [hfind] at h
    exact absurd h (by simp)
  | some t =>
    have hpred : ffcPred name t.1 = true := by
      have := List.find?_some hfind
      simpa using this
    have hmem : t ∈ symbols := List.mem_of_find?_eq_some hfind
    have hfsu : fsuPred name t.1 = true := ffcPred_imp_fsuPred name t.1 hpred
    have hin : UsageMatch.mk t.1 (symbolNameOf t.1) t.2 ∈
        find_symbol_usage symbols name none := by
      unfold find_symbol_usage
      rw [List.mem_filterMap]
      exact ⟨t, hmem, by simp [hfsu]⟩
    exact List.ne_nil_of_mem hin

/-- C7 (witness for the amended theorem): a case-matching query
resolves in both queries. -/
theorem C7_witness :
    find_symbol_usage [("f.java::Foo", sFoo)] "Foo" none ≠ [] :=
  C7_amended [("f.java::Foo", sFoo)] "Foo" "f.java::Foo" [] (by decide)

/-- C8: `find_files` returns a sorted list whose members are exactly
the indexed relative paths whose full path or basename matches the
glob pattern; an empty (unbuilt) index yields `[]`, never an error. -/
theorem C8 (index_data : Option Idx) (pattern : String) :
    List.Sorted (fun a b => a ≤ b) (find_files index_data pattern) ∧
    (∀ p, p ∈ find_files index_data pattern ↔
      ∃ d, index_data = some d ∧ p ∈ d.file_list ∧
        (fnmatch p pattern = true ∨ fnmatch (pyBasename p) pattern = true)) ∧
    find_files none pattern = [] := by
  refine ⟨?_, ?_, rfl⟩
  · cases index_data with
    | none => simp [find_files]
    | some d =>
      unfold find_files
      exact List.sorted_insertionSort _ _
  · intro p
    cases index_data with
    | none => simp [find_files]
    | some d =>
      unfold find_files
      rw [List.mem_insertionSort, List.mem_filter]
      simp [Bool.or_eq_true]

/-- C9: the search-output parser is exactly the per-line
first-two-colons split — one `SearchResult` per line with three fields
and an integer second field, every other line dropped — and its result
length counts the well-formed lines. -/
theorem C9 (output : String) :
    parse_search_output output = (outputLines output).filterMap shape_line ∧
    (parse_search_output output).length =
      (outputLines output).countP (fun l => (shape_line l).isSome) := by
  have hfun : parse_line = shape_line := funext parse_line_eq_shape_line
  constructor
  · unfold parse_search_output
    rw [hfun]
  · unfold parse_search_output
    rw [hfun, length_filterMap_eq_countP]

/-- C10: `search_in_file` matches a line in non-regex mode exactly when
the lowercased pattern is a substring of the lowercased line
(`lineHit ... false`), and in regex mode exactly when the engine
applied to the unmodified pattern and line reports a match
(`lineHit ... true`); every returned match carries the 1-based line
number and the line with trailing whitespace stripped, and every
matching line is returned. -/
theorem C10 (eng : String → String → Option Nat) (fileLines : List String)
    (pattern : String) (isRegex : Bool) :
    (∀ m ∈ search_in_file eng fileLines pattern isRegex,
       ∃ (i : Nat) (h : i < fileLines.length),
         m.line_number = i + 1 ∧
         m.line_content = pyRstrip (fileLines.get ⟨i, h⟩) ∧
         m.match_start = lineStart eng pattern isRegex (fileLines.get ⟨i, h⟩) ∧
         lineHit eng pattern isRegex (fileLines.get ⟨i, h⟩) = true) ∧
    (∀ (i : Nat) (h : i < fileLines.length),
       lineHit eng pattern isRegex (fileLines.get ⟨i, h⟩) = true →
         FileMatch.mk (i + 1) (pyRstrip (fileLines.get ⟨i, h⟩))
           (lineStart eng pattern isRegex (fileLines.get ⟨i, h⟩)) ∈
           search_in_file eng fileLines pattern isRegex) := by
  constructor
  · intro m hm
    obtain ⟨i, h, h1, h2, h3, h4⟩ :=
      searchLinesFrom_sound eng pattern isRegex fileLines 1 m hm
    exact ⟨i, h, by rw [h1, Nat.add_comm], h2, h3, h4⟩
  · intro i h hhit
    have hmem := searchLinesFrom_complete eng pattern isRegex fileLines 1 i h
      hhit
    have harith : 1 + i = i + 1 := Nat.add_comm 1 i
    rw [harith] at hmem
    exact hmem

/-- C10 (witness): the case-insensitive branch at a concrete line with
trailing whitespace. -/
theorem C10_witness :
    (0 < (["Hello ABC  "] : List String).length ∧
      lineHit (fun _ _ => (none : Option Nat)) "abc" false "Hello ABC  " =
        true) ∧
    FileMatch.mk 1 (pyRstrip "Hello ABC  ")
        (lineStart (fun _ _ => (none : Option Nat)) "abc" false
          "Hello ABC  ") ∈
      search_in_file (fun _ _ => (none : Option Nat)) ["Hello ABC  "] "abc"
        false :=
  ⟨⟨by decide, by decide⟩,
   (C10 (fun _ _ => (none : Option Nat)) ["Hello ABC  "] "abc" false).2 0
     (by decide) (by decide)⟩

end CodeAnalysis
